import Mathlib

/-!
Shallow embedding of the gitlab-bot reconciliation engine
(src/client/mod.rs, src/bot.rs) for checking the specification's claims.

Conventions of the embedding:
* `u64` ids become `Nat`; `DateTime<Utc>` timestamps become `Int` seconds
  since the epoch (`chrono::Duration::days d` is `d * 86400` seconds);
  `std::time::Instant` becomes `Nat` seconds.
* Network I/O is replaced by explicit environments: a page-fetching
  function for the paginated client, job-list / job-trace lookup
  functions for the pipeline section, and an explicit, ordered list of
  side effects (`Effect`) that a processing run would issue against the
  remote API.
* The `regex` crate is external to the repository; a compiled regex is
  modelled as its match function `String → Bool`, and `Regex::new(p).ok()`
  as an abstract parameter `compile : String → Option (String → Bool)`.
  `Regex::to_string` returns the source pattern, so the pattern string
  itself is used where the code calls `re.to_string()`.
* Remote entity records keep the fields the reconciliation logic reads;
  payload fields never touched by the modelled code paths are omitted.
-/

/-- Substring test on `List Char`: `listPrefix p l` is true when `p` is a
prefix of `l`.  Used to model Rust's `str::contains`. -/
def listPrefix : List Char → List Char → Bool
  | [], _ => true
  | _ :: _, [] => false
  | a :: as, b :: bs => a == b && listPrefix as bs

/-- Model of Rust's `String::contains(marker)`: some suffix of `s` starts
with `pat`. -/
def strContains (s pat : String) : Bool :=
  (List.range (s.data.length + 1)).any fun i => listPrefix pat.data (s.data.drop i)

theorem listPrefix_iff (p l : List Char) : listPrefix p l = true ↔ ∃ t, l = p ++ t := by
  induction p generalizing l with
  | nil => simp [listPrefix]
  | cons a as ih =>
    cases l with
    | nil => simp [listPrefix]
    | cons b bs =>
      simp only [listPrefix, Bool.and_eq_true, beq_iff_eq, ih, List.cons_append,
        List.cons.injEq]
      constructor
      · rintro ⟨rfl, t, rfl⟩; exact ⟨t, rfl, rfl⟩
      · rintro ⟨t, rfl, rfl⟩; exact ⟨rfl, t, rfl⟩

theorem strContains_iff (s pat : String) :
    strContains s pat = true ↔ ∃ l r, s.data = l ++ pat.data ++ r := by
  unfold strContains
  rw [List.any_eq_true]
  constructor
  · rintro ⟨i, _, hp⟩
    obtain ⟨t, ht⟩ := (listPrefix_iff _ _).mp hp
    refine ⟨s.data.take i, t, ?_⟩
    rw [List.append_assoc, ← ht, List.take_append_drop]
  · rintro ⟨l, r, h⟩
    refine ⟨l.length, ?_, (listPrefix_iff _ _).mpr ⟨r, ?_⟩⟩
    · have hlen : l.length ≤ s.data.length := by
        rw [h]; simp only [List.append_assoc, List.length_append]
        omega
      simp only [List.mem_range]
      omega
    · rw [h, List.append_assoc, List.drop_left]

/-- Strings that end in suffixes of equal length that differ are
different, whatever comes before the suffix. -/
theorem ne_of_decomp {x y a s b t : String} (hx : x = a ++ s) (hy : y = b ++ t)
    (hlen : s.data.length = t.data.length) (hne : s ≠ t) : x ≠ y := by
  intro h
  apply hne
  apply String.ext
  have hdata : a.data ++ s.data = b.data ++ t.data := by
    have := congrArg String.data (hx ▸ hy ▸ h)
    simpa [String.data_append] using this
  exact (List.append_inj' hdata hlen).2

/-! ## API Client: pagination (src/client/mod.rs, `load_paginated`) -/

/-- Concatenation of a list of pages' item lists, in page order. -/
def concatAll (ls : List (List α)) : List α := ls.foldr (fun a b => a ++ b) []

/-- Model of `Gitlab::load_paginated` (src/client/mod.rs lines 151-189).
The HTTP layer is abstracted to `fetchPage : page number → items`;
`total_pages` is the value of the first response's `x-total-pages`
header, `max_pages` the optional caller-supplied page cap.  The result
pairs the list of additional page numbers requested (after the implicit
page-1 request) with the returned item list.  The code returns early with
page 1 only when `total_pages < 2` or when the cap is greater than 2
(`max_pages.map(|x| x > 2).unwrap_or(false)`); otherwise it loops over
`2..=last_page` with `last_page = max_pages.unwrap_or(total_pages)`. -/
def load_paginated (fetchPage : Nat → List α) (total_pages : Nat)
    (max_pages : Option Nat) : List Nat × List α :=
  let items := fetchPage 1
  if total_pages < 2 || ((max_pages.map fun x => decide (2 < x)).getD false) then
    ([], items)
  else
    let last_page := max_pages.getD total_pages
    let pages := List.range' 2 (last_page - 1)
    (pages, items ++ concatAll (pages.map fetchPage))

/-- Model of `Gitlab::commits`' page cap: `ceil(max / 100)` pages
(src/client/mod.rs line 215). -/
def commits_max_pages (max : Nat) : Nat := (max + 99) / 100

/-! ## Data model (src/client/types.rs), fields read by the engine -/

structure Author where
  id : Nat
  username : String
deriving DecidableEq

structure Assignee where
  id : Nat
  username : String
deriving DecidableEq

structure User where
  id : Nat
  username : String
deriving DecidableEq

structure Project where
  id : Nat
  web_url : String
deriving DecidableEq

structure Commit where
  id : String
  committed_date : Int
deriving DecidableEq

structure Branch where
  name : String
  commit : Commit
deriving DecidableEq

structure MergeRequest where
  id : Nat
  iid : Nat
  target_branch : String
  source_branch : String
  project_id : Nat
  title : String
  updated_at : Int
  author : Author
  assignee : Option Assignee
deriving DecidableEq

structure Note where
  id : Nat
  body : String
  author : Option Author
  created_at : Int
deriving DecidableEq

structure Pipeline where
  id : Nat
  status : String
deriving DecidableEq

structure Job where
  id : Nat
  name : String
  status : String
deriving DecidableEq

/-! ## Repo policy config (src/bot.rs lines 139-179) -/

structure ReportConfig where
  job_name : String
  path : String
  format : Option String
deriving DecidableEq

structure RepoMergeRequestConfig where
  title_pattern : Option String
  title_error : Option String
  branch_name_pattern : Option String
  branch_name_error : Option String
deriving DecidableEq

/-- `RepoMergeRequestConfig::title_regex`:
`self.title_pattern.as_ref().and_then(|p| Regex::new(p).ok())`, with
`Regex::new(·).ok()` abstracted as `compile`. -/
def RepoMergeRequestConfig.title_regex (cfg : RepoMergeRequestConfig)
    (compile : String → Option (String → Bool)) : Option (String → Bool) :=
  cfg.title_pattern.bind fun p => compile p

/-- `RepoMergeRequestConfig::branch_regex`, same shape. -/
def RepoMergeRequestConfig.branch_regex (cfg : RepoMergeRequestConfig)
    (compile : String → Option (String → Bool)) : Option (String → Bool) :=
  cfg.branch_name_pattern.bind fun p => compile p

structure RepoConfig where
  disabled : Option Bool
  merge_requests : Option RepoMergeRequestConfig
  reports : List ReportConfig
deriving DecidableEq

/-- `RepoConfig::is_disabled`: `self.disabled.unwrap_or(false)`. -/
def RepoConfig.is_disabled (c : RepoConfig) : Bool := c.disabled.getD false

/-- `RepoConfig::default()`: every optional field absent. -/
def RepoConfig.default : RepoConfig := ⟨none, none, []⟩

/-! ## FullMergeRequest (src/bot.rs lines 18-56) -/

structure FullMergeRequest where
  project : Project
  request : MergeRequest
  source_branch : Branch
  source_branch_commits : List Commit
  target_branch_commits : List Commit
  comments : List Note
  bot_comments : List Note
  pipelines : List Pipeline
  repo_config : RepoConfig
deriving DecidableEq

/-- `FullMergeRequest::has_bot_comment` (src/bot.rs lines 33-51): some bot
comment whose body contains `marker`, discarding comments older than
`max_age_days` when a maximum age is given.  `Utc::now()` is passed in
explicitly as `now`. -/
def FullMergeRequest.has_bot_comment (mr : FullMergeRequest) (now : Int)
    (marker : String) (max_age_days : Option Int) : Bool :=
  mr.bot_comments.any fun c =>
    (match max_age_days with
     | some days => !(decide (c.created_at < now - days * 86400))
     | none => true)
    && strContains c.body marker

/-- `FullMergeRequest::job_url`: the project web url followed by the fixed
jobs path segment and the job id. -/
def FullMergeRequest.job_url (mr : FullMergeRequest) (job_id : Nat) : String :=
  mr.project.web_url ++ "/-/jobs/" ++ toString job_id

/-! ## Cache (src/bot.rs lines 58-137).  The mutex wrapper is elided: all
operations already happen inside one exclusion region in the source, so
the model works directly on the guarded state.  `HashMap` becomes an
association list updated by consing, looked up front-to-back. -/

structure CacheItem (V : Type) where
  item : V
  valid_until : Option Nat
deriving DecidableEq

structure Cacher (V : Type) where
  items : List (Nat × CacheItem V)
deriving DecidableEq

/-- `Cacher::get` (src/bot.rs lines 69-76): the entry is returned only
when `valid_until` is present and `valid_until >= Instant::now()`;  an
entry without expiry, or an expired one, yields `None`. -/
def Cacher.get (c : Cacher V) (now : Nat) (id : Nat) : Option V :=
  (c.items.lookup id).bind fun i =>
    match i.valid_until with
    | some x => if now ≤ x then some i.item else none
    | none => none

/-- `Cacher::add` (src/bot.rs lines 78-86): insert, replacing any previous
entry for the key. -/
def Cacher.add (c : Cacher V) (id : Nat) (value : V) (valid_until : Option Nat) :
    Cacher V :=
  ⟨(id, ⟨value, valid_until⟩) :: c.items⟩

structure CacheInner where
  merge_requests : List (Nat × FullMergeRequest)
  project_configs : Cacher RepoConfig

/-- `Cache::get_project_config` (src/bot.rs lines 124-127). -/
def CacheInner.get_project_config (c : CacheInner) (now : Nat) (project_id : Nat) :
    Option RepoConfig :=
  c.project_configs.get now project_id

/-- `Cache::set_project_config` (src/bot.rs lines 129-136): store with
expiry `Instant::now() + 60 * 30` seconds. -/
def CacheInner.set_project_config (c : CacheInner) (now : Nat) (project_id : Nat)
    (conf : RepoConfig) : CacheInner :=
  { c with project_configs := c.project_configs.add project_id conf (some (now + 60 * 30)) }

/-- `Cache::merge_request_changed` (src/bot.rs lines 103-109): true when no
entry exists or the stored `updated_at` differs. -/
def CacheInner.merge_request_changed (c : CacheInner) (mr : MergeRequest) : Bool :=
  match c.merge_requests.lookup mr.id with
  | some x => !(decide (x.request.updated_at = mr.updated_at))
  | none => true

/-! ## Side effects issued against the remote API by one processing run -/

inductive Effect where
  | commentCreate (project_id : Nat) (iid : Nat) (body : String)
  | commentUpdate (project_id : Nat) (iid : Nat) (note_id : Nat) (body : String)
  | commentDelete (project_id : Nat) (iid : Nat) (note_id : Nat)
  | fetchJobs (project_id : Nat) (pipeline_id : Nat)
  | fetchTrace (project_id : Nat) (job_id : Nat)
deriving DecidableEq

def Effect.isCreate : Effect → Bool
  | .commentCreate _ _ _ => true
  | _ => false

def Effect.isUpdate : Effect → Bool
  | .commentUpdate _ _ _ _ => true
  | _ => false

def Effect.isDelete : Effect → Bool
  | .commentDelete _ _ _ => true
  | _ => false

def Effect.isJobListFetch : Effect → Bool
  | .fetchJobs _ _ => true
  | _ => false

def Effect.isTraceFetch : Effect → Bool
  | .fetchTrace _ _ => true
  | _ => false

/-! ## Policy & report engine (src/bot.rs lines 343-607) -/

/-- Body of the staleness reminder comment (src/bot.rs lines 354-356),
with `reminder_days = 5` substituted. -/
def reminder_body (mr : FullMergeRequest) : String :=
  "@" ++ mr.request.author.username ++
    " friendly reminder: this merge request has not been updated for 5 days!\nLet's get going! ;)\n\n[reminder]"

/-- `Bot::process_merge_request_reminder` (src/bot.rs lines 343-367): if
the source branch head commit is older than `reminder_days = 5` days and
no `[reminder]` bot comment at most 5 days old exists, create a reminder
comment addressed to the author. -/
def process_merge_request_reminder (now : Int) (mr : FullMergeRequest) : List Effect :=
  let reminder_days : Int := 5
  if mr.source_branch.commit.committed_date < now - reminder_days * 86400 then
    if mr.has_bot_comment now "[reminder]" (some reminder_days) = false then
      [Effect.commentCreate mr.request.project_id mr.request.iid (reminder_body mr)]
    else []
  else []

/-- Generated error text when no custom `title_error` is configured
(src/bot.rs lines 400-406); `re.to_string()` is the source pattern. -/
def title_default_error (p : String) : String :=
  "Merge request title should match the pattern: `" ++ p ++ "`"

/-- Body of the title warning comment (src/bot.rs lines 408-411). -/
def title_warning_body (mr : FullMergeRequest) (err : String) : String :=
  "@" ++ mr.request.author.username ++ "\n\nThe merge request title is invalid. \n" ++
    err ++ "\n\n[title_warning]"

/-- Checklist line for the title rule (src/bot.rs lines 420-424). -/
def title_checklist_line (is_valid : Bool) : String :=
  "- [" ++ (if is_valid then "x" else " ") ++ "] Valid Merge Request Title" ++
    (if is_valid then "" else " :warning:") ++ " \n"

/-- Title validation block of `Bot::process_merge_request` (src/bot.rs
lines 392-425): when a title regex is configured and compiles, test the
MR title, post a `[title_warning]` comment when invalid and no such bot
comment exists (any age), and append the checklist line.  Returns the
comment-creation effects and the text appended to `validation_msg`. -/
def titleCheck (compile : String → Option (String → Bool)) (now : Int)
    (mr : FullMergeRequest) (cfg : RepoMergeRequestConfig) : List Effect × String :=
  match cfg.title_pattern with
  | none => ([], "")
  | some p =>
    match compile p with
    | none => ([], "")
    | some matcher =>
      let is_valid := matcher mr.request.title
      let effs :=
        if is_valid then []
        else if mr.has_bot_comment now "[title_warning]" none then []
        else
          [Effect.commentCreate mr.request.project_id mr.request.iid
            (title_warning_body mr (cfg.title_error.getD (title_default_error p)))]
      (effs, title_checklist_line is_valid)

/-- Generated error text for the branch rule (src/bot.rs lines 436-442). -/
def branch_default_error (p : String) : String :=
  "Branch name should match the pattern: `" ++ p ++ "`"

/-- Body of the branch name warning comment (src/bot.rs lines 444-447). -/
def branch_warning_body (mr : FullMergeRequest) (err : String) : String :=
  "@" ++ mr.request.author.username ++ "\n\nThe branch name is invalid. \n" ++
    err ++ "\n\n[branch_name_warning]"

/-- Checklist line for the branch rule (src/bot.rs lines 461-465). -/
def branch_checklist_line (is_valid : Bool) : String :=
  "- [" ++ (if is_valid then "x" else " ") ++ "] Valid Branch Name" ++
    (if is_valid then "" else " :warning:") ++ " \n"

/-- Branch-name validation block (src/bot.rs lines 428-466), symmetric to
`titleCheck`, keyed on the source branch name. -/
def branchCheck (compile : String → Option (String → Bool)) (now : Int)
    (mr : FullMergeRequest) (cfg : RepoMergeRequestConfig) : List Effect × String :=
  match cfg.branch_name_pattern with
  | none => ([], "")
  | some p =>
    match compile p with
    | none => ([], "")
    | some matcher =>
      let is_valid := matcher mr.source_branch.name
      let effs :=
        if is_valid then []
        else if mr.has_bot_comment now "[branch_name_warning]" none then []
        else
          [Effect.commentCreate mr.request.project_id mr.request.iid
            (branch_warning_body mr (cfg.branch_name_error.getD (branch_default_error p)))]
      (effs, branch_checklist_line is_valid)

/-- The two validations run only when `repo_config.merge_requests` is
present (src/bot.rs line 391). -/
def validationChecks (compile : String → Option (String → Bool)) (now : Int)
    (mr : FullMergeRequest) : List Effect × String :=
  match mr.repo_config.merge_requests with
  | none => ([], "")
  | some cfg =>
    let t := titleCheck compile now mr cfg
    let b := branchCheck compile now mr cfg
    (t.1 ++ b.1, t.2 ++ b.2)

/-- Reviewer-presence checklist line (src/bot.rs lines 469-473). -/
def reviewerLine (mr : FullMergeRequest) : String :=
  if mr.request.assignee.isNone then "- [ ] Reviewer selected :warning: \n"
  else "- [x] Reviewer selected \n"

/-- Markdown fragment rendered for one failed job (src/bot.rs lines
519-527), with the job trace text supplied by `traceOf`. -/
def failed_job_section (mr : FullMergeRequest) (traceOf : Nat → String) (job : Job) : String :=
  "#### Job: [" ++ job.name ++ "](" ++ mr.job_url job.id ++
    ")\n\n<details><summary>Show Logs</summary><pre><code>" ++ traceOf job.id ++
    "</code></pre></details><br>\n"

/-- Pipeline summary block of `Bot::process_merge_request` (src/bot.rs
lines 476-542).  When at least one pipeline exists the job list of the
most recent pipeline (`mr.pipelines[0]`) is fetched unconditionally
(line 482), before the status is inspected; job traces are fetched only
for the failed jobs of a `failed` pipeline.  Returns the fetch effects
and the build-status markdown. -/
def pipelineSection (jobsOf : Nat → List Job) (traceOf : Nat → String)
    (mr : FullMergeRequest) : List Effect × String :=
  match mr.pipelines with
  | [] => ([], "")
  | pipeline :: _ =>
    let jobs := jobsOf pipeline.id
    let failed_jobs := jobs.filter fun j => j.status == "failed"
    let success_jobs := jobs.filter fun j => j.status == "success"
    let fetch := Effect.fetchJobs mr.request.project_id pipeline.id
    if pipeline.status == "failed" then
      (fetch :: failed_jobs.map fun job => Effect.fetchTrace mr.request.project_id job.id,
       "## Build Status\n\n" ++ "Pipeline failed! :warning:\n\n" ++
         String.join (failed_jobs.map (failed_job_section mr traceOf)))
    else if pipeline.status == "success" then
      ([fetch],
       "## Build Status\n\n" ++ "Pipeline passed! :rocket:\n\nSuccessful jobs: " ++
         String.intercalate ", "
           (success_jobs.map fun job => "[" ++ job.name ++ "](" ++ mr.job_url job.id ++ ")") ++
         "\n")
    else if pipeline.status == "pending" then
      ([fetch], "## Build Status\n\n" ++ "Pipeline is running... ")
    else
      ([fetch], "## Build Status\n\n")

/-- Result of one processing run over an assembled snapshot: the ordered
list of API side effects, and the rendered report body (`msg`, with the
`[report]` tag appended when non-empty). -/
structure ProcOutput where
  effects : List Effect
  report : String
deriving DecidableEq

/-- `Bot::process_merge_request` (src/bot.rs lines 370-607) from the point
where the `FullMergeRequest` snapshot is assembled: early exit when the
repo config is disabled; staleness reminder; title / branch validation;
reviewer checklist line; pipeline summary; then comment reconciliation —
skip when the newest `[report]` bot comment's body equals the rendered
report, update the newest comment when it is the bot's `[report]`
comment, otherwise create, and finally delete the `[report]`-tagged bot
comments after the first one (`bot_comments.skip(1)`). -/
def process_merge_request (compile : String → Option (String → Bool)) (now : Int)
    (bot : User) (jobsOf : Nat → List Job) (traceOf : Nat → String)
    (mr : FullMergeRequest) : ProcOutput :=
  if mr.repo_config.is_disabled then ⟨[], ""⟩
  else
    let reminder_effects := process_merge_request_reminder now mr
    let validation := validationChecks compile now mr
    let validation_msg := validation.2 ++ reviewerLine mr
    let pipe := pipelineSection jobsOf traceOf mr
    let msg := pipe.2 ++
      (if validation_msg = "" then "" else "## Validation\n\n" ++ validation_msg ++ "\n\n")
    let pre := reminder_effects ++ validation.1 ++ pipe.1
    if msg = "" then ⟨pre, msg⟩
    else
      let msg := msg ++ "\n\n[report]\n"
      let has_changes :=
        ((mr.bot_comments.find? fun c => strContains c.body "[report]").map
          fun c => decide (c.body ≠ msg)).getD true
      if has_changes = false then ⟨pre, msg⟩
      else
        let update_id := mr.comments.head?.bind fun c =>
          if ((c.author.map fun a => a.id == bot.id).getD false && strContains c.body "[report]")
          then some c.id else none
        let write := match update_id with
          | some id => Effect.commentUpdate mr.request.project_id mr.request.iid id msg
          | none => Effect.commentCreate mr.request.project_id mr.request.iid msg
        let deletes :=
          ((mr.bot_comments.drop 1).filter fun c => strContains c.body "[report]").map
            fun c => Effect.commentDelete mr.request.project_id mr.request.iid c.id
        ⟨pre ++ [write] ++ deletes, msg⟩

/-! ## Scheduler fan-out (src/bot.rs lines 636-666).  The `buffered(5)`
stream is modelled sequentially: the claimed property (per-item failures
are absorbed and logged, never aborting siblings or the cycle) concerns
which items run and how failures propagate, not completion order. -/

inductive CycleLog where
  | complete (mr_id : Nat)
  | failed (mr_id : Nat) (err : String)
deriving DecidableEq

/-- The per-item wrapper (src/bot.rs lines 645-662): `res.then(...)`
pattern-matches the item's outcome, logs it, and always resolves to
success so the surrounding stream keeps going. -/
def wrap_merge_request_result (mr_id : Nat) (res : Except String Unit) :
    Except String CycleLog :=
  Except.ok (match res with
    | Except.ok _ => CycleLog.complete mr_id
    | Except.error e => CycleLog.failed mr_id e)

/-- The fan-out of `Bot::process` (src/bot.rs lines 636-666): run every
selected merge request through the wrapper and collect the logs;
`runItem` stands for `process_merge_request`'s fallible execution
against the network. -/
def process_cycle (mrs : List MergeRequest) (runItem : MergeRequest → Except String Unit) :
    Except String (List CycleLog) :=
  mrs.mapM fun mr => wrap_merge_request_result mr.id (runItem mr)

/-! ## Helper lemmas about the embedding -/

theorem str_append_ne_empty (a : String) {b : String} (h : b ≠ "") : a ++ b ≠ "" := by
  intro he
  apply h
  have hd := congrArg String.data he
  rw [String.data_append] at hd
  exact String.ext (by rw [(List.append_eq_nil.mp hd).2])

theorem append_split {s s1 s2 : String} (h : s = s1 ++ s2) (a : String) :
    a ++ s = (a ++ s1) ++ s2 := by
  rw [h, String.append_assoc]

theorem reviewerLine_ne_empty (mr : FullMergeRequest) : reviewerLine mr ≠ "" := by
  unfold reviewerLine
  by_cases h : mr.request.assignee.isNone = true
  · rw [if_pos h]; decide
  · rw [if_neg h]; decide

/-- The reminder block issues at most the single reminder creation. -/
theorem mem_reminder_effects {now : Int} {mr : FullMergeRequest} {e : Effect}
    (h : e ∈ process_merge_request_reminder now mr) :
    e = Effect.commentCreate mr.request.project_id mr.request.iid (reminder_body mr) := by
  simp only [process_merge_request_reminder] at h
  split at h
  · split at h
    · simpa using h
    · simp at h
  · simp at h

/-- Any effect of the title block is a title-warning creation. -/
theorem mem_titleCheck_effects {compile : String → Option (String → Bool)} {now : Int}
    {mr : FullMergeRequest} {cfg : RepoMergeRequestConfig} {e : Effect}
    (h : e ∈ (titleCheck compile now mr cfg).1) :
    ∃ err, e = Effect.commentCreate mr.request.project_id mr.request.iid
      (title_warning_body mr err) := by
  unfold titleCheck at h
  rcases hp : cfg.title_pattern with _ | p <;> rw [hp] at h <;> simp only [] at h
  · simp at h
  · rcases hc : compile p with _ | m <;> rw [hc] at h <;> simp only [] at h
    · simp at h
    · split at h
      · simp at h
      · split at h
        · simp at h
        · simp only [List.mem_singleton] at h
          exact ⟨_, h⟩

/-- Any effect of the branch block is a branch-warning creation. -/
theorem mem_branchCheck_effects {compile : String → Option (String → Bool)} {now : Int}
    {mr : FullMergeRequest} {cfg : RepoMergeRequestConfig} {e : Effect}
    (h : e ∈ (branchCheck compile now mr cfg).1) :
    ∃ err, e = Effect.commentCreate mr.request.project_id mr.request.iid
      (branch_warning_body mr err) := by
  unfold branchCheck at h
  rcases hp : cfg.branch_name_pattern with _ | p <;> rw [hp] at h <;> simp only [] at h
  · simp at h
  · rcases hc : compile p with _ | m <;> rw [hc] at h <;> simp only [] at h
    · simp at h
    · split at h
      · simp at h
      · split at h
        · simp at h
        · simp only [List.mem_singleton] at h
          exact ⟨_, h⟩

/-- Any validation effect is a title- or branch-warning creation. -/
theorem mem_validationChecks_effects {compile : String → Option (String → Bool)} {now : Int}
    {mr : FullMergeRequest} {e : Effect}
    (h : e ∈ (validationChecks compile now mr).1) :
    (∃ err, e = Effect.commentCreate mr.request.project_id mr.request.iid
      (title_warning_body mr err)) ∨
    (∃ err, e = Effect.commentCreate mr.request.project_id mr.request.iid
      (branch_warning_body mr err)) := by
  unfold validationChecks at h
  rcases hm : mr.repo_config.merge_requests with _ | cfg <;> rw [hm] at h
  · simp at h
  · simp only [List.mem_append] at h
    rcases h with h | h
    · exact Or.inl (mem_titleCheck_effects h)
    · exact Or.inr (mem_branchCheck_effects h)

/-- Any pipeline-section effect is a job-list or a trace fetch. -/
theorem mem_pipelineSection_effects {jobsOf : Nat → List Job} {traceOf : Nat → String}
    {mr : FullMergeRequest} {e : Effect}
    (h : e ∈ (pipelineSection jobsOf traceOf mr).1) :
    (∃ a b, e = Effect.fetchJobs a b) ∨ (∃ a b, e = Effect.fetchTrace a b) := by
  unfold pipelineSection at h
  rcases hp : mr.pipelines with _ | ⟨p, rest⟩ <;> rw [hp] at h
  · simp at h
  · simp only at h
    split at h
    · simp only [List.mem_cons] at h
      rcases h with rfl | h
      · exact Or.inl ⟨_, _, rfl⟩
      · obtain ⟨j, _, rfl⟩ := List.mem_map.mp h
        exact Or.inr ⟨_, _, rfl⟩
    · split at h
      · simp only [List.mem_singleton] at h
        subst h
        exact Or.inl ⟨_, _, rfl⟩
      · split at h <;>
        · simp only [List.mem_singleton] at h
          subst h
          exact Or.inl ⟨_, _, rfl⟩

/-- The job-list fetch is issued whenever at least one pipeline exists,
whatever its status (src/bot.rs line 482). -/
theorem pipelineSection_fetchJobs {jobsOf : Nat → List Job} {traceOf : Nat → String}
    {mr : FullMergeRequest} {p : Pipeline} {rest : List Pipeline}
    (hp : mr.pipelines = p :: rest) :
    Effect.fetchJobs mr.request.project_id p.id ∈ (pipelineSection jobsOf traceOf mr).1 := by
  unfold pipelineSection
  rw [hp]
  simp only []
  split
  · exact List.mem_cons_self _ _
  · split
    · exact List.mem_singleton.mpr rfl
    · split
      · exact List.mem_singleton.mpr rfl
      · exact List.mem_singleton.mpr rfl

/-- Job traces are fetched only under a `failed` most-recent pipeline. -/
theorem pipelineSection_no_trace {jobsOf : Nat → List Job} {traceOf : Nat → String}
    {mr : FullMergeRequest} {p : Pipeline} {rest : List Pipeline}
    (hp : mr.pipelines = p :: rest) (hst : p.status ≠ "failed") :
    ∀ a b, Effect.fetchTrace a b ∉ (pipelineSection jobsOf traceOf mr).1 := by
  intro a b hmem
  unfold pipelineSection at hmem
  rw [hp] at hmem
  simp only [] at hmem
  rw [if_neg (by simpa using hst)] at hmem
  split at hmem <;> simp at hmem
  · split at hmem <;> simp at hmem

/-- The build-status text for a `pending` most-recent pipeline. -/
theorem pipelineSection_pending {jobsOf : Nat → List Job} {traceOf : Nat → String}
    {mr : FullMergeRequest} {p : Pipeline} {rest : List Pipeline}
    (hp : mr.pipelines = p :: rest) (hst : p.status = "pending") :
    (pipelineSection jobsOf traceOf mr).2 =
      "## Build Status\n\n" ++ "Pipeline is running... " := by
  unfold pipelineSection
  rw [hp]
  simp only []
  rw [if_neg (by simp [hst]), if_neg (by simp [hst]), if_pos (by simp [hst])]

/-! ## Explicit form of the comment reconciliation (src/bot.rs lines 548-604) -/

/-- The rendered report body: build-status section, validation section
(never empty, because the reviewer line is always appended), and the
closing `[report]` tag. -/
def rendered_report (compile : String → Option (String → Bool)) (now : Int)
    (jobsOf : Nat → List Job) (traceOf : Nat → String) (mr : FullMergeRequest) : String :=
  (pipelineSection jobsOf traceOf mr).2 ++
    ("## Validation\n\n" ++ ((validationChecks compile now mr).2 ++ reviewerLine mr) ++ "\n\n") ++
    "\n\n[report]\n"

/-- `has_changes` (src/bot.rs lines 554-558): the newest `[report]` bot
comment's body differs from the rendered report (default true). -/
def report_has_changes (compile : String → Option (String → Bool)) (now : Int)
    (jobsOf : Nat → List Job) (traceOf : Nat → String) (mr : FullMergeRequest) : Bool :=
  ((mr.bot_comments.find? fun c => strContains c.body "[report]").map
    fun c => decide (c.body ≠ rendered_report compile now jobsOf traceOf mr)).getD true

/-- The write call (src/bot.rs lines 565-592): update in place when the
newest comment on the MR is the bot's `[report]` comment, else create. -/
def report_write (compile : String → Option (String → Bool)) (now : Int) (bot : User)
    (jobsOf : Nat → List Job) (traceOf : Nat → String) (mr : FullMergeRequest) : Effect :=
  match mr.comments.head?.bind (fun c =>
    if ((c.author.map fun a => a.id == bot.id).getD false && strContains c.body "[report]")
    then some c.id else none) with
  | some id => Effect.commentUpdate mr.request.project_id mr.request.iid id
      (rendered_report compile now jobsOf traceOf mr)
  | none => Effect.commentCreate mr.request.project_id mr.request.iid
      (rendered_report compile now jobsOf traceOf mr)

/-- The pruning pass (src/bot.rs lines 594-603): delete the
`[report]`-tagged bot comments after the first one. -/
def report_deletes (mr : FullMergeRequest) : List Effect :=
  ((mr.bot_comments.drop 1).filter fun c => strContains c.body "[report]").map
    fun c => Effect.commentDelete mr.request.project_id mr.request.iid c.id

/-- Equational form of `process_merge_request` on a non-disabled config:
the preliminary effects (reminder, validation warnings, pipeline fetches)
always run; the write and the pruning deletes run exactly when
`report_has_changes` holds; the rendered report is never empty. -/
theorem process_eq (compile : String → Option (String → Bool)) (now : Int) (bot : User)
    (jobsOf : Nat → List Job) (traceOf : Nat → String) (mr : FullMergeRequest)
    (hdis : mr.repo_config.is_disabled = false) :
    process_merge_request compile now bot jobsOf traceOf mr =
      if report_has_changes compile now jobsOf traceOf mr = false then
        ⟨process_merge_request_reminder now mr ++ (validationChecks compile now mr).1 ++
           (pipelineSection jobsOf traceOf mr).1,
         rendered_report compile now jobsOf traceOf mr⟩
      else
        ⟨process_merge_request_reminder now mr ++ (validationChecks compile now mr).1 ++
           (pipelineSection jobsOf traceOf mr).1 ++
           [report_write compile now bot jobsOf traceOf mr] ++ report_deletes mr,
         rendered_report compile now jobsOf traceOf mr⟩ := by
  have hv : ¬(((validationChecks compile now mr).2 ++ reviewerLine mr) = "") :=
    str_append_ne_empty _ (reviewerLine_ne_empty mr)
  have hmsg : ¬((pipelineSection jobsOf traceOf mr).2 ++
      ("## Validation\n\n" ++ ((validationChecks compile now mr).2 ++ reviewerLine mr) ++ "\n\n")
        = "") :=
    str_append_ne_empty _ (str_append_ne_empty _ (by decide))
  simp only [process_merge_request, rendered_report, report_has_changes, report_write,
    report_deletes, hdis, Bool.false_eq_true, if_false]
  rw [if_neg hv, if_neg hmsg]

/-- The rendered report always ends in the `[report]` tag line. -/
theorem rendered_report_decomp (compile : String → Option (String → Bool)) (now : Int)
    (jobsOf : Nat → List Job) (traceOf : Nat → String) (mr : FullMergeRequest) :
    rendered_report compile now jobsOf traceOf mr =
      ((pipelineSection jobsOf traceOf mr).2 ++
        ("## Validation\n\n" ++ ((validationChecks compile now mr).2 ++ reviewerLine mr) ++ "\n\n")) ++
      "\n\n[report]\n" := rfl

theorem title_warning_body_decomp (mr : FullMergeRequest) (err : String) :
    title_warning_body mr err =
      (("@" ++ mr.request.author.username ++ "\n\nThe merge request title is invalid. \n" ++ err) ++
        "\n\n[tit") ++ "le_warning]" :=
  append_split (by decide) _

theorem branch_warning_body_decomp (mr : FullMergeRequest) (err : String) :
    branch_warning_body mr err =
      (("@" ++ mr.request.author.username ++ "\n\nThe branch name is invalid. \n" ++ err) ++
        "\n\n[branch_na") ++ "me_warning]" :=
  append_split (by decide) _

theorem reminder_body_decomp (mr : FullMergeRequest) :
    reminder_body mr =
      (("@" ++ mr.request.author.username) ++
        " friendly reminder: this merge request has not been updated for 5 days!\nLet's get going! ;)\n") ++
      "\n[reminder]" :=
  append_split (by decide) _

theorem title_ne_reminder (mr mr' : FullMergeRequest) (err : String) :
    title_warning_body mr err ≠ reminder_body mr' :=
  ne_of_decomp (title_warning_body_decomp mr err) (reminder_body_decomp mr') (by decide) (by decide)

theorem title_ne_branch (mr mr' : FullMergeRequest) (err err' : String) :
    title_warning_body mr err ≠ branch_warning_body mr' err' :=
  ne_of_decomp (title_warning_body_decomp mr err) (branch_warning_body_decomp mr' err')
    (by decide) (by decide)

theorem title_ne_tagged (mr : FullMergeRequest) (err a : String) :
    title_warning_body mr err ≠ a ++ "\n\n[report]\n" :=
  ne_of_decomp (title_warning_body_decomp mr err) rfl (by decide) (by decide)

theorem branch_ne_tagged (mr : FullMergeRequest) (err a : String) :
    branch_warning_body mr err ≠ a ++ "\n\n[report]\n" :=
  ne_of_decomp (branch_warning_body_decomp mr err) rfl (by decide) (by decide)

theorem reminder_ne_tagged (mr : FullMergeRequest) (a : String) :
    reminder_body mr ≠ a ++ "\n\n[report]\n" :=
  ne_of_decomp (reminder_body_decomp mr) rfl (by decide) (by decide)

/-- The write step is either an in-place update or a fresh creation of the
rendered report. -/
theorem report_write_cases (compile : String → Option (String → Bool)) (now : Int) (bot : User)
    (jobsOf : Nat → List Job) (traceOf : Nat → String) (mr : FullMergeRequest) :
    (∃ id, report_write compile now bot jobsOf traceOf mr =
      Effect.commentUpdate mr.request.project_id mr.request.iid id
        (rendered_report compile now jobsOf traceOf mr)) ∨
    report_write compile now bot jobsOf traceOf mr =
      Effect.commentCreate mr.request.project_id mr.request.iid
        (rendered_report compile now jobsOf traceOf mr) := by
  unfold report_write
  split
  · exact Or.inl ⟨_, rfl⟩
  · exact Or.inr rfl

/-- The pruning pass deletes exactly the `[report]`-tagged bot comments
after the first one. -/
theorem mem_report_deletes {mr : FullMergeRequest} {e : Effect} (h : e ∈ report_deletes mr) :
    ∃ c ∈ mr.bot_comments.drop 1, strContains c.body "[report]" = true ∧
      e = Effect.commentDelete mr.request.project_id mr.request.iid c.id := by
  unfold report_deletes at h
  obtain ⟨c, hc, rfl⟩ := List.mem_map.mp h
  obtain ⟨hc1, hc2⟩ := List.mem_filter.mp hc
  exact ⟨c, hc1, hc2, rfl⟩

theorem report_deletes_mem {mr : FullMergeRequest} {c : Note}
    (hc : c ∈ mr.bot_comments.drop 1) (ht : strContains c.body "[report]" = true) :
    Effect.commentDelete mr.request.project_id mr.request.iid c.id ∈ report_deletes mr := by
  unfold report_deletes
  exact List.mem_map.mpr ⟨c, List.mem_filter.mpr ⟨hc, ht⟩, rfl⟩

/-! ## Concrete fixtures used by witnesses and counterexamples -/

def botUser : User := ⟨1, "bot"⟩

def mrBase : FullMergeRequest := {
  project := ⟨7, "https://git.example/p"⟩
  request := ⟨100, 2, "master", "feat", 7, "fix bug", 1000, ⟨9, "alice"⟩, none⟩
  source_branch := ⟨"feat", ⟨"abc", 0⟩⟩
  source_branch_commits := []
  target_branch_commits := []
  comments := []
  bot_comments := []
  pipelines := []
  repo_config := ⟨none, none, []⟩ }

/-! ## Claims -/

/-- C1: the spec's pagination contract requires requesting pages
`2..=min(total, cap)` and concatenating all pages' items in page order.
The code violates it for any cap greater than 2: with `x-total-pages: 3`
and a cap of 3 it issues no extra page requests and returns only page 1's
items, while with no cap and 3 total pages it correctly issues two extra
requests and concatenates pages 1, 2, 3 — evaluating `load_paginated` at
both inputs exhibits the divergence flagged as a latent defect by the
spec's own design notes. -/
theorem claim_C1_eval :
    load_paginated (fun p => [10 + p]) 3 (some 3) = ([], [11]) ∧
    load_paginated (fun p => [10 + p]) 3 none = ([2, 3], [11, 12, 13]) := by
  constructor <;> rfl

def c5_cache : CacheInner := ⟨[], ⟨[]⟩⟩

/-- C5 counterexample: the claim says a lookup at any time `now ≥ expiry`
is a miss, but `Cacher::get` treats an entry as valid while
`valid_until ≥ now`, so a lookup exactly at the expiry instant
(store at 0, lookup at 0 + 30 minutes = 1800 s) still returns the stored
config instead of `none`. -/
theorem claim_C5_counterexample :
    (c5_cache.set_project_config 0 42 RepoConfig.default).get_project_config 1800 42 =
      some RepoConfig.default ∧ 1800 = 0 + 60 * 30 := by
  constructor <;> rfl

/-- C5 (amended): a stored repo config is served unchanged at every lookup
with `now ≤ stored-time + 30 min` (in particular at T+29min) and is a miss
returning `none` strictly after the expiry instant (in particular at
T+31min); every store installs a fresh 30-minute expiry.  The boundary
`now = expiry` is a hit, not a miss. -/
theorem claim_C5_amended (c : CacheInner) (project_id : Nat) (conf : RepoConfig) (t tq : Nat) :
    (c.set_project_config t project_id conf).get_project_config tq project_id =
      if tq ≤ t + 60 * 30 then some conf else none := by
  unfold CacheInner.set_project_config CacheInner.get_project_config Cacher.add Cacher.get
  simp [List.lookup]

/-- C8: when the resolved repo config has the disabled flag set, processing
produces no output at all — no effects (no reminder, no warnings, no
report create/update/delete) and an empty report. -/
theorem claim_C8_disabled (compile : String → Option (String → Bool)) (now : Int) (bot : User)
    (jobsOf : Nat → List Job) (traceOf : Nat → String) (mr : FullMergeRequest)
    (hdis : mr.repo_config.is_disabled = true) :
    process_merge_request compile now bot jobsOf traceOf mr = ⟨[], ""⟩ := by
  simp [process_merge_request, hdis]

def c8_mr : FullMergeRequest := { mrBase with repo_config := ⟨some true, none, []⟩ }

/-- C8 witness: a concrete disabled merge request produces no effects and
an empty report. -/
theorem claim_C8_witness :
    process_merge_request (fun _ => none) 0 botUser (fun _ => []) (fun _ => "") c8_mr =
      ⟨[], ""⟩ :=
  claim_C8_disabled (fun _ => none) 0 botUser (fun _ => []) (fun _ => "") c8_mr rfl

/-- C9: the per-item wrapper converts every item outcome — success or
failure — into a successful log entry, so a cycle over any list of merge
requests never aborts and yields one log entry per item, regardless of
which items failed. -/
theorem claim_C9_isolation (mrs : List MergeRequest)
    (runItem : MergeRequest → Except String Unit) :
    process_cycle mrs runItem =
      Except.ok (mrs.map fun mr =>
        match runItem mr with
        | Except.ok _ => CycleLog.complete mr.id
        | Except.error e => CycleLog.failed mr.id e) := by
  induction mrs with
  | nil => rfl
  | cons a l ih =>
    simp only [process_cycle, List.mapM_cons, wrap_merge_request_result, List.map_cons] at ih ⊢
    rw [ih]
    rfl

/-- C7: a reminder comment addressed to the MR author is created by the
reminder pass if and only if the source branch head commit's committed
date is older than 5 days before now and no `[reminder]` bot comment was
created within the last 5 days; the reminder body is addressed to the
author, and on a non-disabled config the reminder effects form a prefix
of the whole run's effect list, before any report assembly effect. -/
theorem claim_C7_reminder (compile : String → Option (String → Bool)) (now : Int) (bot : User)
    (jobsOf : Nat → List Job) (traceOf : Nat → String) (mr : FullMergeRequest) :
    (Effect.commentCreate mr.request.project_id mr.request.iid (reminder_body mr) ∈
        process_merge_request_reminder now mr ↔
      (mr.source_branch.commit.committed_date < now - 5 * 86400 ∧
        mr.has_bot_comment now "[reminder]" (some 5) = false)) ∧
    (∃ rest, reminder_body mr = "@" ++ mr.request.author.username ++ rest) ∧
    (mr.repo_config.is_disabled = false →
      ∃ rest, (process_merge_request compile now bot jobsOf traceOf mr).effects =
        process_merge_request_reminder now mr ++ rest) := by
  refine ⟨?_, ⟨_, rfl⟩, ?_⟩
  · simp only [process_merge_request_reminder]
    by_cases h1 : mr.source_branch.commit.committed_date < now - 5 * 86400
    · rw [if_pos h1]
      by_cases h2 : mr.has_bot_comment now "[reminder]" (some 5) = false
      · rw [if_pos h2]
        simp only [List.mem_singleton]
        exact ⟨fun _ => ⟨h1, h2⟩, fun _ => trivial⟩
      · rw [if_neg h2]
        simp only [List.not_mem_nil, false_iff, not_and]
        intro _ hcon
        exact h2 hcon
    · rw [if_neg h1]
      simp only [List.not_mem_nil, false_iff, not_and]
      intro hcon
      exact absurd hcon h1
  · intro hdis
    rw [process_eq compile now bot jobsOf traceOf mr hdis]
    by_cases hch : report_has_changes compile now jobsOf traceOf mr = false
    · rw [if_pos hch]
      exact ⟨(validationChecks compile now mr).1 ++ (pipelineSection jobsOf traceOf mr).1,
        by simp [List.append_assoc]⟩
    · rw [if_neg hch]
      exact ⟨(validationChecks compile now mr).1 ++ (pipelineSection jobsOf traceOf mr).1 ++
        [report_write compile now bot jobsOf traceOf mr] ++ report_deletes mr,
        by simp [List.append_assoc]⟩

/-- C7 witness: a merge request whose head commit is 1000000 s older than
now (more than 5 days) and with no bot comments gets the reminder. -/
theorem claim_C7_witness :
    Effect.commentCreate mrBase.request.project_id mrBase.request.iid (reminder_body mrBase) ∈
      process_merge_request_reminder 1000000 mrBase := by
  have h := claim_C7_reminder (fun _ => none) 1000000 botUser (fun _ => []) (fun _ => "") mrBase
  exact h.1.mpr (by decide)

/-- On a non-disabled config the rendered report is returned whether or
not a write happened. -/
theorem process_report_eq (compile : String → Option (String → Bool)) (now : Int) (bot : User)
    (jobsOf : Nat → List Job) (traceOf : Nat → String) (mr : FullMergeRequest)
    (hdis : mr.repo_config.is_disabled = false) :
    (process_merge_request compile now bot jobsOf traceOf mr).report =
      rendered_report compile now jobsOf traceOf mr := by
  rw [process_eq _ _ _ _ _ _ hdis]
  split <;> rfl

/-- Effects of a run whose rendered report matches the newest `[report]`
bot comment: only the preliminary effects, no write and no pruning. -/
theorem process_effects_unchanged (compile : String → Option (String → Bool)) (now : Int)
    (bot : User) (jobsOf : Nat → List Job) (traceOf : Nat → String) (mr : FullMergeRequest)
    (hdis : mr.repo_config.is_disabled = false)
    (hch : report_has_changes compile now jobsOf traceOf mr = false) :
    (process_merge_request compile now bot jobsOf traceOf mr).effects =
      process_merge_request_reminder now mr ++ (validationChecks compile now mr).1 ++
        (pipelineSection jobsOf traceOf mr).1 := by
  rw [process_eq _ _ _ _ _ _ hdis, if_pos hch]

/-- Effects of a run that writes the report: preliminary effects, then the
write, then the pruning deletes. -/
theorem process_effects_changed (compile : String → Option (String → Bool)) (now : Int)
    (bot : User) (jobsOf : Nat → List Job) (traceOf : Nat → String) (mr : FullMergeRequest)
    (hdis : mr.repo_config.is_disabled = false)
    (hch : report_has_changes compile now jobsOf traceOf mr = true) :
    (process_merge_request compile now bot jobsOf traceOf mr).effects =
      process_merge_request_reminder now mr ++ (validationChecks compile now mr).1 ++
        (pipelineSection jobsOf traceOf mr).1 ++
        [report_write compile now bot jobsOf traceOf mr] ++ report_deletes mr := by
  rw [process_eq _ _ _ _ _ _ hdis, if_neg (by simp [hch])]

def noteHuman : Note := ⟨5, "nice work", some ⟨9, "alice"⟩, 50⟩

def noteB2 : Note := ⟨4, "old report [report]", some ⟨1, "bot"⟩, 40⟩

def noteB1 : Note := ⟨3, "older report [report]", some ⟨1, "bot"⟩, 30⟩

def c2_mr : FullMergeRequest :=
  { mrBase with comments := [noteHuman, noteB2, noteB1], bot_comments := [noteB2, noteB1] }

def c2_out : ProcOutput :=
  process_merge_request (fun _ => none) 0 botUser (fun _ => []) (fun _ => "") c2_mr

/-- Whether the effect list deletes the note with the given id. -/
def effectsDelete (effects : List Effect) (nid : Nat) : Bool :=
  effects.any fun e => match e with
    | .commentDelete _ _ x => x == nid
    | _ => false

/-- The body an update effect writes into the note with the given id. -/
def effectsUpdateBody (effects : List Effect) (nid : Nat) : Option String :=
  effects.findSome? fun e => match e with
    | .commentUpdate _ _ x b => if x == nid then some b else none
    | _ => none

/-- Number of `[report]`-tagged comments live after applying the effects
to the comment list: surviving (possibly updated) existing comments plus
created ones. -/
def countLiveReports (comments : List Note) (effects : List Effect) : Nat :=
  (comments.filter fun c =>
    !(effectsDelete effects c.id) &&
      strContains ((effectsUpdateBody effects c.id).getD c.body) "[report]").length +
  (effects.filter fun e => match e with
    | .commentCreate _ _ b => strContains b "[report]"
    | _ => false).length

/-- C2 counterexample: on a merge request whose newest comment is a human
comment while two older `[report]`-tagged bot comments exist, the run
takes the create path and prunes only `bot_comments.skip(1)` — the newest
bot comment `noteB2` is `[report]`-tagged, is not the comment just
written, is neither deleted nor updated, and two `[report]` comments
remain live, contradicting the claimed bound of exactly one. -/
theorem claim_C2_counterexample :
    noteB2 ∈ c2_mr.bot_comments ∧
    strContains noteB2.body "[report]" = true ∧
    c2_out.effects.any Effect.isUpdate = false ∧
    (c2_out.effects.any fun e => decide
      (e = Effect.commentDelete c2_mr.request.project_id c2_mr.request.iid noteB2.id)) = false ∧
    countLiveReports c2_mr.comments c2_out.effects = 2 := by
  refine ⟨by decide, by decide, by decide, by decide, by decide⟩

/-- C2 (amended): after a run that writes the report, the pruning deletes
exactly the `[report]`-tagged bot comments other than the newest bot
comment (`bot_comments.skip(1)`).  When the report was written by
updating the newest comment this leaves exactly one live report comment,
but on the create path a `[report]`-tagged newest bot comment is not
deleted and survives next to the new comment. -/
theorem claim_C2_amended (compile : String → Option (String → Bool)) (now : Int) (bot : User)
    (jobsOf : Nat → List Job) (traceOf : Nat → String) (mr : FullMergeRequest)
    (hdis : mr.repo_config.is_disabled = false)
    (hch : report_has_changes compile now jobsOf traceOf mr = true) :
    (∀ c ∈ mr.bot_comments.drop 1, strContains c.body "[report]" = true →
      Effect.commentDelete mr.request.project_id mr.request.iid c.id ∈
        (process_merge_request compile now bot jobsOf traceOf mr).effects) ∧
    (∀ a b nid, Effect.commentDelete a b nid ∈
        (process_merge_request compile now bot jobsOf traceOf mr).effects →
      ∃ c ∈ mr.bot_comments.drop 1, c.id = nid ∧ strContains c.body "[report]" = true) := by
  rw [process_effects_changed compile now bot jobsOf traceOf mr hdis hch]
  constructor
  · intro c hc htag
    have hdm := report_deletes_mem hc htag
    simp only [List.mem_append]
    tauto
  · intro a b nid hmem
    rcases List.mem_append.mp hmem with hmem | hmem
    · rcases List.mem_append.mp hmem with hmem | hmem
      · rcases List.mem_append.mp hmem with hmem | hmem
        · rcases List.mem_append.mp hmem with hmem | hmem
          · have := mem_reminder_effects hmem
            simp at this
          · rcases mem_validationChecks_effects hmem with ⟨err, heq⟩ | ⟨err, heq⟩ <;> simp at heq
        · rcases mem_pipelineSection_effects hmem with ⟨x, y, heq⟩ | ⟨x, y, heq⟩ <;> simp at heq
      · simp only [List.mem_singleton] at hmem
        rcases report_write_cases compile now bot jobsOf traceOf mr with ⟨id, hw⟩ | hw <;>
          rw [hw] at hmem <;> simp at hmem
    · obtain ⟨c, hc1, hc2, heq⟩ := mem_report_deletes hmem
      simp only [Effect.commentDelete.injEq] at heq
      exact ⟨c, hc1, heq.2.2.symm, hc2⟩

/-- C2 witness: on the concrete snapshot the older `[report]` bot comment
`noteB1` does get a delete effect. -/
theorem claim_C2_witness :
    Effect.commentDelete c2_mr.request.project_id c2_mr.request.iid noteB1.id ∈
      c2_out.effects := by
  have h := claim_C2_amended (fun _ => none) 0 botUser (fun _ => []) (fun _ => "") c2_mr
    (by decide) (by decide)
  exact h.1 noteB1 (by decide) (by decide)

def c3_mr : FullMergeRequest := { mrBase with pipelines := [⟨77, "pending"⟩] }

def c3_out : ProcOutput :=
  process_merge_request (fun _ => none) 0 botUser (fun _ => []) (fun _ => "") c3_mr

/-- C3 counterexample: with a `pending` most-recent pipeline the claim
forbids any job-detail fetch, but the run issues the job-list fetch. -/
theorem claim_C3_counterexample :
    c3_mr.pipelines.head?.map Pipeline.status = some "pending" ∧
    c3_out.effects.any Effect.isJobListFetch = true := by
  refine ⟨by decide, by decide⟩

/-- C3 (amended): whenever at least one pipeline exists the job list of
the most recent pipeline is fetched, regardless of its status; job traces
are fetched only when that pipeline's status is `failed`; and for
`pending` only the short running note is rendered. -/
theorem claim_C3_amended (compile : String → Option (String → Bool)) (now : Int) (bot : User)
    (jobsOf : Nat → List Job) (traceOf : Nat → String) (mr : FullMergeRequest)
    (p : Pipeline) (rest : List Pipeline)
    (hdis : mr.repo_config.is_disabled = false) (hp : mr.pipelines = p :: rest) :
    (Effect.fetchJobs mr.request.project_id p.id ∈
      (process_merge_request compile now bot jobsOf traceOf mr).effects) ∧
    (p.status ≠ "failed" → ∀ a b, Effect.fetchTrace a b ∉
      (process_merge_request compile now bot jobsOf traceOf mr).effects) ∧
    (p.status = "pending" → (pipelineSection jobsOf traceOf mr).2 =
      "## Build Status\n\n" ++ "Pipeline is running... ") := by
  have hj := @pipelineSection_fetchJobs jobsOf traceOf mr p rest hp
  refine ⟨?_, ?_, fun hst => pipelineSection_pending hp hst⟩
  · by_cases hch : report_has_changes compile now jobsOf traceOf mr = false
    · rw [process_effects_unchanged compile now bot jobsOf traceOf mr hdis hch]
      simp only [List.mem_append]
      tauto
    · rw [process_effects_changed compile now bot jobsOf traceOf mr hdis
        (by revert hch; cases report_has_changes compile now jobsOf traceOf mr <;> simp)]
      simp only [List.mem_append]
      tauto
  · intro hst a b hmem
    have hnt := @pipelineSection_no_trace jobsOf traceOf mr p rest hp hst a b
    by_cases hch : report_has_changes compile now jobsOf traceOf mr = false
    · rw [process_effects_unchanged compile now bot jobsOf traceOf mr hdis hch] at hmem
      rcases List.mem_append.mp hmem with hmem | hmem
      · rcases List.mem_append.mp hmem with hmem | hmem
        · have := mem_reminder_effects hmem
          simp at this
        · rcases mem_validationChecks_effects hmem with ⟨err, heq⟩ | ⟨err, heq⟩ <;> simp at heq
      · exact hnt hmem
    · rw [process_effects_changed compile now bot jobsOf traceOf mr hdis
        (by revert hch; cases report_has_changes compile now jobsOf traceOf mr <;> simp)] at hmem
      rcases List.mem_append.mp hmem with hmem | hmem
      · rcases List.mem_append.mp hmem with hmem | hmem
        · rcases List.mem_append.mp hmem with hmem | hmem
          · rcases List.mem_append.mp hmem with hmem | hmem
            · have := mem_reminder_effects hmem
              simp at this
            · rcases mem_validationChecks_effects hmem with ⟨err, heq⟩ | ⟨err, heq⟩ <;>
                simp at heq
          · exact hnt hmem
        · simp only [List.mem_singleton] at hmem
          rcases report_write_cases compile now bot jobsOf traceOf mr with ⟨id, hw⟩ | hw <;>
            rw [hw] at hmem <;> simp at hmem
      · obtain ⟨c, _, _, heq⟩ := mem_report_deletes hmem
        simp at heq

/-- C3 witness: the concrete pending-pipeline snapshot gets its job-list
fetch through the amended theorem. -/
theorem claim_C3_witness :
    Effect.fetchJobs c3_mr.request.project_id (Pipeline.mk 77 "pending").id ∈
      c3_out.effects := by
  have h := claim_C3_amended (fun _ => none) 0 botUser (fun _ => []) (fun _ => "") c3_mr
    ⟨77, "pending"⟩ [] (by decide) rfl
  exact h.1

def c4_cfg : RepoMergeRequestConfig := ⟨some "^T", none, none, none⟩

def c4_compile : String → Option (String → Bool) := fun _ => some fun _ => false

def c4_base : FullMergeRequest := { mrBase with repo_config := ⟨none, some c4_cfg, []⟩ }

def c4_report : String :=
  (process_merge_request c4_compile 0 botUser (fun _ => []) (fun _ => "") c4_base).report

def c4_note : Note := ⟨8, c4_report, some ⟨1, "bot"⟩, 60⟩

def c4_mr : FullMergeRequest :=
  { c4_base with comments := [c4_note], bot_comments := [c4_note] }

def c4_out : ProcOutput :=
  process_merge_request c4_compile 0 botUser (fun _ => []) (fun _ => "") c4_mr

/-- C4 counterexample: the newest `[report]` bot comment's body is
byte-identical to the newly rendered report, yet the run still performs a
comment write call — it creates a title-warning comment — contradicting
the claimed "zero comment write calls (no create, no update, no
delete)". -/
theorem claim_C4_counterexample :
    c4_mr.bot_comments.find? (fun c => strContains c.body "[report]") = some c4_note ∧
    c4_note.body = c4_out.report ∧
    c4_out.effects.any Effect.isCreate = true := by
  refine ⟨by decide, by decide, by decide⟩

/-- C4 (amended): when the newest `[report]`-tagged bot comment's body is
byte-identical to the rendered report, the run performs no report-comment
write: no update, no delete, and no creation of the report body.  Policy
warning and reminder creations may still occur independently. -/
theorem claim_C4_amended (compile : String → Option (String → Bool)) (now : Int) (bot : User)
    (jobsOf : Nat → List Job) (traceOf : Nat → String) (mr : FullMergeRequest) (c : Note)
    (hfind : mr.bot_comments.find? (fun c => strContains c.body "[report]") = some c)
    (hbody : c.body = (process_merge_request compile now bot jobsOf traceOf mr).report) :
    (∀ e ∈ (process_merge_request compile now bot jobsOf traceOf mr).effects,
      e.isUpdate = false ∧ e.isDelete = false) ∧
    (∀ p i b, Effect.commentCreate p i b ∈
        (process_merge_request compile now bot jobsOf traceOf mr).effects →
      b ≠ (process_merge_request compile now bot jobsOf traceOf mr).report) := by
  by_cases hdis : mr.repo_config.is_disabled = false
  · have hrep := process_report_eq compile now bot jobsOf traceOf mr hdis
    have hcb : c.body = rendered_report compile now jobsOf traceOf mr := hbody.trans hrep
    have hch : report_has_changes compile now jobsOf traceOf mr = false := by
      unfold report_has_changes
      rw [hfind]
      simp [hcb]
    have heff := process_effects_unchanged compile now bot jobsOf traceOf mr hdis hch
    constructor
    · intro e he
      rw [heff] at he
      rcases List.mem_append.mp he with he | he
      · rcases List.mem_append.mp he with he | he
        · rw [mem_reminder_effects he]; exact ⟨rfl, rfl⟩
        · rcases mem_validationChecks_effects he with ⟨err, rfl⟩ | ⟨err, rfl⟩ <;> exact ⟨rfl, rfl⟩
      · rcases mem_pipelineSection_effects he with ⟨x, y, rfl⟩ | ⟨x, y, rfl⟩ <;> exact ⟨rfl, rfl⟩
    · intro p i b hmem
      rw [heff] at hmem
      rw [hrep, rendered_report_decomp]
      rcases List.mem_append.mp hmem with hmem | hmem
      · rcases List.mem_append.mp hmem with hmem | hmem
        · have := mem_reminder_effects hmem
          simp only [Effect.commentCreate.injEq] at this
          rw [this.2.2]
          exact reminder_ne_tagged mr _
        · rcases mem_validationChecks_effects hmem with ⟨err, heq⟩ | ⟨err, heq⟩ <;>
            simp only [Effect.commentCreate.injEq] at heq
          · rw [heq.2.2]; exact title_ne_tagged mr err _
          · rw [heq.2.2]; exact branch_ne_tagged mr err _
      · rcases mem_pipelineSection_effects hmem with ⟨x, y, heq⟩ | ⟨x, y, heq⟩ <;> simp at heq
  · have hd : mr.repo_config.is_disabled = true := by
      revert hdis; cases mr.repo_config.is_disabled <;> simp
    constructor
    · intro e he
      simp [process_merge_request, hd] at he
    · intro p i b hmem
      simp [process_merge_request, hd] at hmem

/-- C4 witness: on the concrete unchanged snapshot the title-warning
creation that does happen never carries the report body. -/
theorem claim_C4_witness :
    title_warning_body c4_mr (title_default_error "^T") ≠ c4_out.report := by
  have h := claim_C4_amended c4_compile 0 botUser (fun _ => []) (fun _ => "") c4_mr c4_note
    (by decide) (by decide)
  exact h.2 c4_mr.request.project_id c4_mr.request.iid _ (by decide)

/-- C6: with a configured title pattern that compiles but does not match
the MR title, and no existing `[title_warning]` bot comment (any age),
the run creates exactly one title-warning comment; its body contains the
configured custom message or, absent one, the generated text, which
itself contains the literal pattern; and the report carries the checklist
line with a space marker and a warning glyph. -/
theorem claim_C6_title (compile : String → Option (String → Bool)) (now : Int) (bot : User)
    (jobsOf : Nat → List Job) (traceOf : Nat → String) (mr : FullMergeRequest)
    (cfg : RepoMergeRequestConfig) (tp : String) (matcher : String → Bool)
    (hdis : mr.repo_config.is_disabled = false)
    (hm : mr.repo_config.merge_requests = some cfg)
    (ht : cfg.title_pattern = some tp)
    (hc : compile tp = some matcher)
    (hinv : matcher mr.request.title = false)
    (hw : mr.has_bot_comment now "[title_warning]" none = false) :
    ((process_merge_request compile now bot jobsOf traceOf mr).effects.countP fun e =>
      decide (e = Effect.commentCreate mr.request.project_id mr.request.iid
        (title_warning_body mr (cfg.title_error.getD (title_default_error tp))))) = 1 ∧
    (∃ pre post, title_warning_body mr (cfg.title_error.getD (title_default_error tp)) =
      pre ++ cfg.title_error.getD (title_default_error tp) ++ post) ∧
    (∃ pre post, title_default_error tp = pre ++ tp ++ post) ∧
    (∃ pre post, (process_merge_request compile now bot jobsOf traceOf mr).report =
      pre ++ title_checklist_line false ++ post) ∧
    title_checklist_line false = "- [ ] Valid Merge Request Title :warning: \n" := by
  have htc : titleCheck compile now mr cfg =
      ([Effect.commentCreate mr.request.project_id mr.request.iid
         (title_warning_body mr (cfg.title_error.getD (title_default_error tp)))],
       title_checklist_line false) := by
    unfold titleCheck
    rw [ht]
    simp only []
    rw [hc]
    simp only [hinv, hw]
    rfl
  have hvc1 : (validationChecks compile now mr).1 =
      (titleCheck compile now mr cfg).1 ++ (branchCheck compile now mr cfg).1 := by
    unfold validationChecks
    rw [hm]
  have hvc2 : (validationChecks compile now mr).2 =
      title_checklist_line false ++ (branchCheck compile now mr cfg).2 := by
    unfold validationChecks
    rw [hm]
    simp only [htc]
  have hp : ∀ e : Effect,
      (decide (e = Effect.commentCreate mr.request.project_id mr.request.iid
        (title_warning_body mr (cfg.title_error.getD (title_default_error tp)))) = true) ↔
      e = Effect.commentCreate mr.request.project_id mr.request.iid
        (title_warning_body mr (cfg.title_error.getD (title_default_error tp))) := by
    intro e; exact decide_eq_true_iff
  have hrem : (process_merge_request_reminder now mr).countP (fun e =>
      decide (e = Effect.commentCreate mr.request.project_id mr.request.iid
        (title_warning_body mr (cfg.title_error.getD (title_default_error tp))))) = 0 := by
    rw [List.countP_eq_zero]
    intro e he
    rw [mem_reminder_effects he]
    simp only [decide_eq_true_eq, Effect.commentCreate.injEq, not_and]
    intro _ _ hb
    exact title_ne_reminder mr mr _ hb.symm
  have hbr : ((branchCheck compile now mr cfg).1).countP (fun e =>
      decide (e = Effect.commentCreate mr.request.project_id mr.request.iid
        (title_warning_body mr (cfg.title_error.getD (title_default_error tp))))) = 0 := by
    rw [List.countP_eq_zero]
    intro e he
    obtain ⟨err, rfl⟩ := mem_branchCheck_effects he
    simp only [decide_eq_true_eq, Effect.commentCreate.injEq, not_and]
    intro _ _ hb
    exact title_ne_branch mr mr _ err hb.symm
  have hpipe : ((pipelineSection jobsOf traceOf mr).1).countP (fun e =>
      decide (e = Effect.commentCreate mr.request.project_id mr.request.iid
        (title_warning_body mr (cfg.title_error.getD (title_default_error tp))))) = 0 := by
    rw [List.countP_eq_zero]
    intro e he
    rcases mem_pipelineSection_effects he with ⟨x, y, rfl⟩ | ⟨x, y, rfl⟩ <;> simp
  have htcount : ((titleCheck compile now mr cfg).1).countP (fun e =>
      decide (e = Effect.commentCreate mr.request.project_id mr.request.iid
        (title_warning_body mr (cfg.title_error.getD (title_default_error tp))))) = 1 := by
    rw [htc]
    simp
  refine ⟨?_, ?_, ?_, ?_, by decide⟩
  · by_cases hch : report_has_changes compile now jobsOf traceOf mr = false
    · rw [process_effects_unchanged compile now bot jobsOf traceOf mr hdis hch]
      rw [List.countP_append, List.countP_append, hvc1, List.countP_append]
      rw [hrem, hbr, hpipe, htcount]
    · rw [process_effects_changed compile now bot jobsOf traceOf mr hdis
        (by revert hch; cases report_has_changes compile now jobsOf traceOf mr <;> simp)]
      rw [List.countP_append, List.countP_append, List.countP_append, List.countP_append,
        hvc1, List.countP_append]
      rw [hrem, hbr, hpipe, htcount]
      have hwz : ([report_write compile now bot jobsOf traceOf mr].countP fun e =>
          decide (e = Effect.commentCreate mr.request.project_id mr.request.iid
            (title_warning_body mr (cfg.title_error.getD (title_default_error tp))))) = 0 := by
        rw [List.countP_eq_zero]
        intro e he
        simp only [List.mem_singleton] at he
        subst he
        rcases report_write_cases compile now bot jobsOf traceOf mr with ⟨id, hwr⟩ | hwr <;>
          rw [hwr]
        · simp
        · simp only [decide_eq_true_eq, Effect.commentCreate.injEq, not_and]
          intro _ _ hb
          rw [rendered_report_decomp] at hb
          exact title_ne_tagged mr _ _ hb.symm
      have hdz : ((report_deletes mr).countP fun e =>
          decide (e = Effect.commentCreate mr.request.project_id mr.request.iid
            (title_warning_body mr (cfg.title_error.getD (title_default_error tp))))) = 0 := by
        rw [List.countP_eq_zero]
        intro e he
        obtain ⟨c, _, _, rfl⟩ := mem_report_deletes he
        simp
      rw [hwz, hdz]
  · exact ⟨"@" ++ mr.request.author.username ++ "\n\nThe merge request title is invalid. \n",
      "\n\n[title_warning]", rfl⟩
  · exact ⟨"Merge request title should match the pattern: `", "`", rfl⟩
  · refine ⟨(pipelineSection jobsOf traceOf mr).2 ++ "## Validation\n\n",
      (branchCheck compile now mr cfg).2 ++ reviewerLine mr ++ "\n\n" ++ "\n\n[report]\n", ?_⟩
    rw [process_report_eq compile now bot jobsOf traceOf mr hdis]
    unfold rendered_report
    rw [hvc2]
    simp [String.append_assoc]

def c6_cfg : RepoMergeRequestConfig := ⟨some "^\\[[A-Z]+-\\d+\\]", none, none, none⟩

def c6_mr : FullMergeRequest := { mrBase with repo_config := ⟨none, some c6_cfg, []⟩ }

def c6_compile : String → Option (String → Bool) := fun _ => some fun _ => false

def c6_out : ProcOutput :=
  process_merge_request c6_compile 0 botUser (fun _ => []) (fun _ => "") c6_mr

/-- C6 witness: the spec's own example — title "fix bug" against the
pattern from the spec, no custom message, no existing warning — yields
exactly one title-warning creation. -/
theorem claim_C6_witness :
    (c6_out.effects.countP fun e =>
      decide (e = Effect.commentCreate c6_mr.request.project_id c6_mr.request.iid
        (title_warning_body c6_mr (c6_cfg.title_error.getD
          (title_default_error "^\\[[A-Z]+-\\d+\\]"))))) = 1 := by
  have h := claim_C6_title c6_compile 0 botUser (fun _ => []) (fun _ => "") c6_mr c6_cfg
    "^\\[[A-Z]+-\\d+\\]" (fun _ => false) (by decide) rfl rfl rfl rfl (by decide)
  exact h.1

/-- C5 witness: a config stored at T = 0 is served at T+29min (1740 s)
and is a miss at T+31min (1860 s). -/
theorem claim_C5_witness :
    (c5_cache.set_project_config 0 42 RepoConfig.default).get_project_config 1740 42 =
      some RepoConfig.default ∧
    (c5_cache.set_project_config 0 42 RepoConfig.default).get_project_config 1860 42 =
      none := by
  have h1 := claim_C5_amended c5_cache 42 RepoConfig.default 0 1740
  have h2 := claim_C5_amended c5_cache 42 RepoConfig.default 0 1860
  rw [h1, h2]
  exact ⟨by decide, by decide⟩

theorem branch_ne_reminder (mr mr' : FullMergeRequest) (err : String) :
    branch_warning_body mr err ≠ reminder_body mr' :=
  ne_of_decomp (branch_warning_body_decomp mr err) (reminder_body_decomp mr')
    (by decide) (by decide)

/-- Every comment creation of a run is the reminder, a validation-block
warning, or the rendered report. -/
theorem process_creates_characterized (compile : String → Option (String → Bool)) (now : Int)
    (bot : User) (jobsOf : Nat → List Job) (traceOf : Nat → String) (mr : FullMergeRequest)
    {p i : Nat} {b : String}
    (hmem : Effect.commentCreate p i b ∈
      (process_merge_request compile now bot jobsOf traceOf mr).effects) :
    b = reminder_body mr ∨
    Effect.commentCreate p i b ∈ (validationChecks compile now mr).1 ∨
    b = rendered_report compile now jobsOf traceOf mr := by
  by_cases hdis : mr.repo_config.is_disabled = false
  · by_cases hch : report_has_changes compile now jobsOf traceOf mr = false
    · rw [process_effects_unchanged compile now bot jobsOf traceOf mr hdis hch] at hmem
      rcases List.mem_append.mp hmem with hmem | hmem
      · rcases List.mem_append.mp hmem with hmem | hmem
        · have := mem_reminder_effects hmem
          simp only [Effect.commentCreate.injEq] at this
          exact Or.inl this.2.2
        · exact Or.inr (Or.inl hmem)
      · rcases mem_pipelineSection_effects hmem with ⟨x, y, hxy⟩ | ⟨x, y, hxy⟩ <;> simp at hxy
    · rw [process_effects_changed compile now bot jobsOf traceOf mr hdis
        (by revert hch; cases report_has_changes compile now jobsOf traceOf mr <;> simp)] at hmem
      rcases List.mem_append.mp hmem with hmem | hmem
      · rcases List.mem_append.mp hmem with hmem | hmem
        · rcases List.mem_append.mp hmem with hmem | hmem
          · rcases List.mem_append.mp hmem with hmem | hmem
            · have := mem_reminder_effects hmem
              simp only [Effect.commentCreate.injEq] at this
              exact Or.inl this.2.2
            · exact Or.inr (Or.inl hmem)
          · rcases mem_pipelineSection_effects hmem with ⟨x, y, hxy⟩ | ⟨x, y, hxy⟩ <;>
              simp at hxy
        · simp only [List.mem_singleton] at hmem
          rcases report_write_cases compile now bot jobsOf traceOf mr with ⟨id, hw⟩ | hw <;>
            rw [hw] at hmem
          · simp at hmem
          · simp only [Effect.commentCreate.injEq] at hmem
            exact Or.inr (Or.inr hmem.2.2)
      · obtain ⟨c, _, _, hc⟩ := mem_report_deletes hmem
        simp at hc
  · have hd : mr.repo_config.is_disabled = true := by
      revert hdis
      cases mr.repo_config.is_disabled <;> simp
    simp [process_merge_request, hd] at hmem

/-- C10: an unparsable configured pattern makes `title_regex` (resp.
`branch_regex`) return none, and the corresponding validation alone is
silently skipped: that block produces no effects and no checklist text,
and no warning comment carrying that rule's body is ever created by the
(total, hence error-free) run — each side independently of whether the
other pattern is absent, valid, or itself invalid. -/
theorem claim_C10_invalid_pattern (compile : String → Option (String → Bool)) (now : Int)
    (bot : User) (jobsOf : Nat → List Job) (traceOf : Nat → String) (mr : FullMergeRequest)
    (cfg : RepoMergeRequestConfig)
    (hm : mr.repo_config.merge_requests = some cfg) :
    (∀ tp, cfg.title_pattern = some tp → compile tp = none →
      cfg.title_regex compile = none ∧
      titleCheck compile now mr cfg = ([], "") ∧
      (∀ p i b err, Effect.commentCreate p i b ∈
          (process_merge_request compile now bot jobsOf traceOf mr).effects →
        b ≠ title_warning_body mr err)) ∧
    (∀ bp, cfg.branch_name_pattern = some bp → compile bp = none →
      cfg.branch_regex compile = none ∧
      branchCheck compile now mr cfg = ([], "") ∧
      (∀ p i b err, Effect.commentCreate p i b ∈
          (process_merge_request compile now bot jobsOf traceOf mr).effects →
        b ≠ branch_warning_body mr err)) := by
  constructor
  · intro tp ht hct
    have httl : titleCheck compile now mr cfg = ([], "") := by
      unfold titleCheck
      rw [ht]
      simp only []
      rw [hct]
    refine ⟨by simp [RepoMergeRequestConfig.title_regex, ht, hct], httl, ?_⟩
    intro p i b err hmem
    rcases process_creates_characterized compile now bot jobsOf traceOf mr hmem with
      hb | hmem' | hb
    · rw [hb]
      exact (title_ne_reminder mr mr err).symm
    · have hval : (validationChecks compile now mr).1 =
          (branchCheck compile now mr cfg).1 := by
        unfold validationChecks
        rw [hm]
        simp [httl]
      rw [hval] at hmem'
      obtain ⟨err', heq⟩ := mem_branchCheck_effects hmem'
      simp only [Effect.commentCreate.injEq] at heq
      rw [heq.2.2]
      exact (title_ne_branch mr mr err err').symm
    · rw [hb, rendered_report_decomp]
      exact (title_ne_tagged mr err _).symm
  · intro bp hbp hcb
    have hbr : branchCheck compile now mr cfg = ([], "") := by
      unfold branchCheck
      rw [hbp]
      simp only []
      rw [hcb]
    refine ⟨by simp [RepoMergeRequestConfig.branch_regex, hbp, hcb], hbr, ?_⟩
    intro p i b err hmem
    rcases process_creates_characterized compile now bot jobsOf traceOf mr hmem with
      hb | hmem' | hb
    · rw [hb]
      exact (branch_ne_reminder mr mr err).symm
    · have hval : (validationChecks compile now mr).1 =
          (titleCheck compile now mr cfg).1 := by
        unfold validationChecks
        rw [hm]
        simp [hbr]
      rw [hval] at hmem'
      obtain ⟨err', heq⟩ := mem_titleCheck_effects hmem'
      simp only [Effect.commentCreate.injEq] at heq
      rw [heq.2.2]
      exact title_ne_branch mr mr err' err
    · rw [hb, rendered_report_decomp]
      exact (branch_ne_tagged mr err _).symm

def c10_compile : String → Option (String → Bool) :=
  fun p => if p = "^ok" then some (fun _ => true) else none

def c10_cfg : RepoMergeRequestConfig := ⟨some "(", none, some "^ok", none⟩

def c10_mr : FullMergeRequest := { mrBase with repo_config := ⟨none, some c10_cfg, []⟩ }

/-- C10 witness: a config whose title pattern does not compile while its
branch pattern is present and compiles fine still gets no title regex
and a skipped title validation — the invalid side alone is dropped. -/
theorem claim_C10_witness :
    c10_cfg.title_regex c10_compile = none ∧
    titleCheck c10_compile 0 c10_mr c10_cfg = ([], "") := by
  have h := claim_C10_invalid_pattern c10_compile 0 botUser (fun _ => []) (fun _ => "")
    c10_mr c10_cfg rfl
  obtain ⟨h1, h2, _⟩ := h.1 "(" rfl rfl
  exact ⟨h1, h2⟩
